import Mathlib

/-!
Verification of the anyrl-py actor-critic data pipeline and episode logging.

The development shallowly embeds the three source files:

* `anyrl/models/feedforward.py` — the `FeedforwardAC` model (`scale_outputs`,
  `stateful`, `start_state`, `step`, `batches`) and the module-level helper
  `_frames_from_rollouts`.
* `anyrl/rollouts/logger.py` — `EpisodeLogger` (`__init__`, `write_rollouts`,
  `write_frame`).
* `anyrl/envs/wrappers/logs.py` — `LoggedEnv` (`_initialize_file` modelled as
  `LoggedEnv.initFile`, `_step`, `_write_entry`).

Numeric quantities (rewards, timestamps, network outputs) are modelled with
exact arithmetic (`Int` / `ℚ`); observations and actions are type parameters.
File contents are modelled structurally: a `FileContent` records whether the
literal `r,l,t` header line is present and the list of data rows.
-/

/-- Modelled from the spec: the `Rollout` record is created by the
rollout-collection driver (`anyrl/rollouts/rollout.py`, not among the given
sources).  Per spec §3 it carries the per-timestep observations (with a
possible dangling trailing observation when `trunc_end` is true), the
`trunc_end` flag, and the bookkeeping fields `total_reward`, `total_steps`
and `end_time` used by the episode logger. -/
structure Rollout (α : Type) where
  observations : List α
  trunc_end : Bool
  total_reward : Int
  total_steps : Int
  end_time : Int
  deriving DecidableEq

instance {α : Type} : Inhabited (Rollout α) := ⟨⟨[], false, 0, 0, 0⟩⟩

/-- Modelled from the spec: `Rollout.step_observations` is an attribute of the
`Rollout` class (`anyrl/rollouts/rollout.py`, not among the given sources).
Spec §3 states the invariant that when `trunc_end` is true the final entry of
the stored observations is a "next observation" that must be excluded from
flattened training frames, and §4.2/§9 record that the flattener in
`feedforward.py` relies on the caller never including that dangling frame
(its docstring: "Does not include trailing observations for truncated
rollouts").  Accordingly `step_observations` is the pre-trimmed view: it drops
the trailing observation exactly when the rollout is truncated. -/
def Rollout.step_observations {α : Type} (ro : Rollout α) : List α :=
  if ro.trunc_end then ro.observations.dropLast else ro.observations

/-- Inner loop of `_frames_from_rollouts`: `for timestep_idx, obs in
enumerate(rollout.step_observations)` appending `(obs, rollout_idx,
timestep_idx)` triples, with the enumeration counter made explicit. -/
def stepsAux {α : Type} (ridx tidx : Nat) : List α → List (α × Nat × Nat)
  | [] => []
  | o :: os => (o, ridx, tidx) :: stepsAux ridx (tidx + 1) os

/-- Outer loop of `_frames_from_rollouts`: `for rollout_idx, rollout in
enumerate(rollouts)`, with the enumeration counter made explicit. -/
def framesAux {α : Type} (ridx : Nat) : List (Rollout α) → List (α × Nat × Nat)
  | [] => []
  | ro :: rest => stepsAux ridx 0 ro.step_observations ++ framesAux (ridx + 1) rest

/-- `_frames_from_rollouts` (feedforward.py lines 122-142): flattens the
rollouts into a list of observations plus parallel lists of rollout indices
and timestep indices. -/
def _frames_from_rollouts {α : Type} (rollouts : List (Rollout α)) :
    List α × List Nat × List Nat :=
  let fs := framesAux 0 rollouts
  (fs.map (fun f => f.1), fs.map (fun f => f.2.1), fs.map (fun f => f.2.2))

/-- Fuel-driven consecutive chunking of a list, `k` elements per chunk (the
last chunk may be shorter).  Fuel equal to the list length suffices whenever
`1 ≤ k`. -/
def chunksAux (k : Nat) : Nat → List Nat → List (List Nat)
  | _, [] => []
  | 0, _ :: _ => []
  | fuel + 1, x :: rest => ((x :: rest).take k) :: chunksAux k fuel ((x :: rest).drop k)

/-- Consecutive chunks of at most `k` elements covering the whole list. -/
def chunks (k : Nat) (xs : List Nat) : List (List Nat) :=
  chunksAux k xs.length xs

/-- Modelled from the spec: `mini_batches` lives in `anyrl/models/util.py`,
which is not among the given sources.  Spec §4.3 (MiniBatchPartitioner):
given the indexable item sizes and a `batch_size`, yield a finite sequence of
index lists partitioning `range(N)`; `batch_size = none` yields exactly one
batch equal to the full index range in original order, otherwise consecutive
chunks of at most `batch_size` are produced (default deterministic, no
shuffling).  `feedforward.py` invokes it as `mini_batches([1]*len(obses),
batch_size)`, so every item has size 1 and a chunk of total size at most
`batch_size` is a chunk of at most `batch_size` indices. -/
def mini_batches (sizes : List Nat) (batch_size : Option Nat) : List (List Nat) :=
  match batch_size with
  | none => [List.range sizes.length]
  | some k => chunks k (List.range sizes.length)

/-- One element of the lazy sequence yielded by `FeedforwardAC.batches`:
the rollout/timestep provenance indices routed to this minibatch and the
observation subset that `batches` binds into the feed dict (the feed dict
itself applies the external observation vectorizer to exactly this list). -/
structure TrainingBatch (α : Type) where
  rollout_idxs : List Nat
  timestep_idxs : List Nat
  obses : List α
  deriving DecidableEq

/-- The feed-forward actor-critic model (`FeedforwardAC`).  The TensorFlow
tensors `actor_out` / `critic_out` are modelled as the functions they compute
per observation: a parameter vector for the actor head and a scalar for the
critic head (`critic_out` has shape `(None,)` in the source).  The action
distribution's `sample` capability is carried as a field; the session and
observation placeholder are implicit in this functional reading. -/
structure FeedforwardAC (α β : Type) where
  actor_out : α → List ℚ
  critic_out : α → ℚ
  sample : List (List ℚ) → List β

/-- `scale_outputs` (feedforward.py lines 35-43): `critic_out *= scale;
actor_out *= scale`, i.e. both head outputs are multiplied pointwise by the
factor. -/
def FeedforwardAC.scale_outputs {α β : Type} (m : FeedforwardAC α β) (scale : ℚ) :
    FeedforwardAC α β :=
  { m with
    critic_out := fun o => m.critic_out o * scale
    actor_out := fun o => (m.actor_out o).map (fun p => p * scale) }

/-- `stateful` (feedforward.py lines 45-47): always `False`. -/
def FeedforwardAC.stateful {α β : Type} (_ : FeedforwardAC α β) : Bool := false

/-- `start_state` (feedforward.py lines 49-50): always the stateless sentinel
`None`, regardless of the requested batch size. -/
def FeedforwardAC.start_state {α β : Type} (_ : FeedforwardAC α β) (_ : Nat) :
    Option Unit := none

/-- The dictionary returned by `step`. -/
structure StepOut (β : Type) where
  action_params : List (List ℚ)
  actions : List β
  states : Option Unit
  values : List ℚ
  deriving DecidableEq

/-- `step` (feedforward.py lines 52-62): run both heads on the observation
batch, sample actions from the actor parameters, and return the result with
`states = None`.  The `states` argument is ignored by the stateless model. -/
def FeedforwardAC.step {α β : Type} (m : FeedforwardAC α β) (observations : List α)
    (_states : Option Unit) : StepOut β :=
  let act := observations.map m.actor_out
  { action_params := act
    actions := m.sample act
    states := none
    values := observations.map m.critic_out }

/-- `batches` (feedforward.py lines 68-78): flatten the rollouts, then for
each index list produced by `mini_batches([1]*len(obses), batch_size)` yield
the selected provenance indices (`np.take`) and the selected observation
sub-list (`[obses[i] for i in mini_indices]`, the input of the feed dict). -/
def FeedforwardAC.batches {α β : Type} [Inhabited α] (_m : FeedforwardAC α β)
    (rollouts : List (Rollout α)) (batch_size : Option Nat) : List (TrainingBatch α) :=
  let fr := _frames_from_rollouts rollouts
  (mini_batches (List.replicate fr.1.length 1) batch_size).map fun mini =>
    { rollout_idxs := mini.map fun i => fr.2.1.getD i 0
      timestep_idxs := mini.map fun i => fr.2.2.getD i 0
      obses := mini.map fun i => fr.1.getD i default }

/-! ## Episode log files -/

/-- One data row of an episode log: reward `r`, length `l`, relative end
timestamp `t`. -/
structure Row where
  r : Int
  l : Int
  t : Int
  deriving DecidableEq

/-- Structural model of the bytes of a log file: whether the literal header
line `r,l,t` is present, and the parsed data rows.  A zero-byte file is
`⟨false, []⟩`; every file this code writes has the header. -/
structure FileContent where
  hasHeader : Bool
  rows : List Row
  deriving DecidableEq

/-- A zero-byte file. -/
def emptyFile : FileContent := ⟨false, []⟩

/-- External `pandas.read_csv` behaviour on a log file: on a zero-byte file it
raises `EmptyDataError` ("No columns to parse from file"); on a file with a
header it returns the data rows (zero or more).  Headerless non-empty files
are outside the valid log-file domain and are modelled as returning their
rows. -/
def read_csv (f : FileContent) : Except String (List Row) :=
  if !f.hasHeader && f.rows.isEmpty then Except.error "EmptyDataError"
  else Except.ok f.rows

/-- Maximum of the `t` column of a nonempty row list (Python `max(contents['t'])`);
`0` for an empty list, on which the code never calls it. -/
def maxT : List Row → Int
  | [] => 0
  | row :: rest => rest.foldl (fun a q => max a q.t) row.t

/-- The state of an `EpisodeLogger`: its start-time anchor. -/
structure EpisodeLogger where
  start_time : Int
  deriving DecidableEq

/-- `EpisodeLogger.__init__` (logger.py lines 19-30): `now` is `time.time()`
at entry.  If the path holds a file, `pandas.read_csv` it (propagating any
exception), anchor at `now - max(t)` when there are data rows and at `now`
otherwise, and open for append (content unchanged).  If the path is absent,
create the file and write the `r,l,t` header. -/
def EpisodeLogger.init (file : Option FileContent) (now : Int) :
    Except String (EpisodeLogger × FileContent) :=
  match file with
  | some f =>
    match read_csv f with
    | Except.error e => Except.error e
    | Except.ok rows =>
      Except.ok (⟨if rows.isEmpty then now else now - maxT rows⟩, f)
  | none => Except.ok (⟨now⟩, ⟨true, []⟩)

/-- Row ordering by the `t` column, used by `sort_values(by='t')`. -/
def rowLe (a b : Row) : Prop := a.t ≤ b.t

instance : DecidableRel rowLe := fun a b => inferInstanceAs (Decidable (a.t ≤ b.t))

instance : IsTotal Row rowLe := ⟨fun a b => le_total a.t b.t⟩

instance : IsTrans Row rowLe := ⟨fun _ _ _ h1 h2 => le_trans h1 h2⟩

/-- `EpisodeLogger.write_frame` (logger.py lines 48-57): sort the frame's rows
by the `t` column (`sort_values(by='t')`) and append their CSV rendering to
the end of the log. -/
def EpisodeLogger.write_frame (file : FileContent) (frame : List Row) : FileContent :=
  ⟨file.hasHeader, file.rows ++ List.insertionSort rowLe frame⟩

/-- `EpisodeLogger.write_rollouts` (logger.py lines 32-46): collect one
`(r, l, t)` record per rollout whose `trunc_end` is false (in input order,
`t` relative to the anchor); if no record was collected return without
touching the file, otherwise hand the frame to `write_frame`. -/
def EpisodeLogger.write_rollouts {α : Type} (lg : EpisodeLogger) (file : FileContent)
    (rollouts : List (Rollout α)) : FileContent :=
  let data := (rollouts.filter fun ro => !ro.trunc_end).map fun ro =>
    Row.mk ro.total_reward ro.total_steps (ro.end_time - lg.start_time)
  if data.isEmpty then file else EpisodeLogger.write_frame file data

/-! ## LoggedEnv -/

/-- The mutable state of a `LoggedEnv`: the start-time anchor, the running
episode accumulators, and the log file it owns. -/
structure LoggedState where
  start_time : Int
  cur_reward : Int
  cur_timesteps : Int
  file : FileContent
  deriving DecidableEq

/-- `LoggedEnv.__init__` + `_initialize_file` (logs.py lines 20-44, 87-102):
the path is opened with `O_RDWR | O_CREAT`, so an absent path becomes a
zero-byte file.  If the file has any bytes, `pandas.read_csv` it (propagating
any exception) and anchor at `now - max(t)` when data rows exist; otherwise
write the `r,l,t` header.  Both episode accumulators start at 0. -/
def LoggedEnv.initFile (file : Option FileContent) (now : Int) :
    Except String LoggedState :=
  let f := file.getD emptyFile
  if f.hasHeader || !f.rows.isEmpty then
    match read_csv f with
    | Except.error e => Except.error e
    | Except.ok rows =>
      Except.ok ⟨if rows.isEmpty then now else now - maxT rows, 0, 0, f⟩
  else
    Except.ok ⟨now, 0, 0, ⟨true, f.rows⟩⟩

/-- One observation of the wrapped environment's `step`: the reward it
returned, whether `done` was set, and the wall-clock time `time.time()` at
which the wrapper processed it. -/
structure Event where
  rew : Int
  done : Bool
  now : Int
  deriving DecidableEq

/-- `LoggedEnv._step` (logs.py lines 46-54) together with `_write_entry`
(lines 69-85): accumulate the reward, count the timestep, and when the inner
environment reports `done` append the single row
`(cur_reward, cur_timesteps, now - start_time)` to the log and reset both
accumulators to 0. -/
def LoggedEnv.stepEnv (st : LoggedState) (e : Event) : LoggedState :=
  let r := st.cur_reward + e.rew
  let n := st.cur_timesteps + 1
  if e.done then
    { st with
      cur_reward := 0
      cur_timesteps := 0
      file := ⟨st.file.hasHeader, st.file.rows ++ [Row.mk r n (e.now - st.start_time)]⟩ }
  else
    { st with cur_reward := r, cur_timesteps := n }

/-- Repeatedly step the wrapper over a trace of inner-environment events. -/
def LoggedEnv.runSteps (st : LoggedState) (events : List Event) : LoggedState :=
  events.foldl LoggedEnv.stepEnv st

/-! ## Properties of the rollout flattener -/

theorem stepsAux_length {α : Type} (os : List α) (ridx tidx : Nat) :
    (stepsAux ridx tidx os).length = os.length := by
  induction os generalizing tidx with
  | nil => rfl
  | cons o os ih => simp [stepsAux, ih]

theorem mem_stepsAux {α : Type} (os : List α) (ridx tidx : Nat) (t : α × Nat × Nat)
    (h : t ∈ stepsAux ridx tidx os) :
    ∃ j, os.get? j = some t.1 ∧ t.2.1 = ridx ∧ t.2.2 = tidx + j := by
  induction os generalizing tidx with
  | nil => cases h
  | cons o os ih =>
    rcases List.mem_cons.mp h with h1 | h1
    · exact ⟨0, by simp [h1], by simp [h1], by simp [h1]⟩
    · obtain ⟨j, hj, h2, h3⟩ := ih (tidx + 1) h1
      exact ⟨j + 1, by simpa using hj, h2, by omega⟩

theorem mem_framesAux {α : Type} (rollouts : List (Rollout α)) (ridx : Nat)
    (t : α × Nat × Nat) (h : t ∈ framesAux ridx rollouts) :
    ∃ j ro, rollouts.get? j = some ro ∧ t.2.1 = ridx + j ∧
      ro.step_observations.get? t.2.2 = some t.1 := by
  induction rollouts generalizing ridx with
  | nil => cases h
  | cons ro rest ih =>
    rcases List.mem_append.mp h with h1 | h1
    · obtain ⟨j, hj, h2, h3⟩ := mem_stepsAux _ _ _ _ h1
      refine ⟨0, ro, rfl, by omega, ?_⟩
      rw [h3]
      simpa using hj
    · obtain ⟨j, ro', hget, h2, h3⟩ := ih (ridx + 1) h1
      exact ⟨j + 1, ro', by simpa using hget, by omega, h3⟩

/-- The flattened observation list and the two index lists all have the same
length (they are parallel projections of one list of frame triples). -/
theorem frames_lengths {α : Type} (rollouts : List (Rollout α)) :
    (_frames_from_rollouts rollouts).2.1.length = (_frames_from_rollouts rollouts).1.length ∧
    (_frames_from_rollouts rollouts).2.2.length = (_frames_from_rollouts rollouts).1.length := by
  simp [_frames_from_rollouts]

/-- Reading off the `i`-th flattened frame: it is the `i`-th triple of
`framesAux 0 rollouts`. -/
theorem frames_getD {α : Type} [Inhabited α] (rollouts : List (Rollout α)) (i : Nat)
    (h : i < (framesAux 0 rollouts).length) :
    (_frames_from_rollouts rollouts).1.getD i default = ((framesAux 0 rollouts).get ⟨i, h⟩).1 ∧
    (_frames_from_rollouts rollouts).2.1.getD i 0 = ((framesAux 0 rollouts).get ⟨i, h⟩).2.1 ∧
    (_frames_from_rollouts rollouts).2.2.getD i 0 = ((framesAux 0 rollouts).get ⟨i, h⟩).2.2 := by
  have hsome : (framesAux 0 rollouts)[i]? = some ((framesAux 0 rollouts).get ⟨i, h⟩) := by
    simp [List.getElem?_eq_getElem, h]
  refine ⟨?_, ?_, ?_⟩ <;>
    simp [_frames_from_rollouts, List.getD_eq_getElem?_getD, List.getElem?_map, hsome]

/-- C5: flattening is a faithful round trip — for every output position `i`,
`observations[i]` equals
`rollouts[rollout_indices[i]].step_observations[timestep_indices[i]]`, so
re-grouping the flat frames by `(rollout_idx, timestep_idx)` reconstructs
every original per-rollout, per-timestep observation exactly. -/
theorem frames_round_trip {α : Type} [Inhabited α] (rollouts : List (Rollout α)) (i : Nat)
    (h : i < (_frames_from_rollouts rollouts).1.length) :
    ((rollouts.getD ((_frames_from_rollouts rollouts).2.1.getD i 0) default).step_observations).getD
      ((_frames_from_rollouts rollouts).2.2.getD i 0) default
    = (_frames_from_rollouts rollouts).1.getD i default := by
  have hlen : i < (framesAux 0 rollouts).length := by
    simpa [_frames_from_rollouts] using h
  obtain ⟨h1, h2, h3⟩ := frames_getD rollouts i hlen
  have hmem : (framesAux 0 rollouts).get ⟨i, hlen⟩ ∈ framesAux 0 rollouts :=
    List.get_mem _ _ _
  obtain ⟨j, ro, hget, hj, hstep⟩ := mem_framesAux _ _ _ hmem
  rw [h1, h2, h3, hj]
  have hget' : rollouts[j]? = some ro := by
    simpa [List.get?_eq_getElem?] using hget
  have hstep' : ro.step_observations[((framesAux 0 rollouts).get ⟨i, hlen⟩).2.2]?
      = some ((framesAux 0 rollouts).get ⟨i, hlen⟩).1 := by
    simpa [List.get?_eq_getElem?] using hstep
  rw [Nat.zero_add, List.getD_eq_getElem?_getD rollouts j default, hget', Option.getD_some,
    List.getD_eq_getElem?_getD, hstep', Option.getD_some]

/-- C5 witness: the round-trip property evaluated on a concrete rollout list. -/
theorem frames_round_trip_witness :
    0 < (_frames_from_rollouts [Rollout.mk [7, 8] false 0 0 0]).1.length ∧
    ((([Rollout.mk [7, 8] false 0 0 0] : List (Rollout Nat)).getD
        ((_frames_from_rollouts [Rollout.mk [7, 8] false 0 0 0]).2.1.getD 0 0)
        default).step_observations).getD
      ((_frames_from_rollouts [Rollout.mk [7, 8] false 0 0 0]).2.2.getD 0 0) default
    = (_frames_from_rollouts [Rollout.mk [7, 8] false 0 0 0]).1.getD 0 default :=
  ⟨by decide, frames_round_trip [Rollout.mk [7, 8] false 0 0 0] 0 (by decide)⟩

/-- C1: the flattening used by `batches` never emits the trailing observation
of a truncated rollout — at every output position whose rollout is truncated,
the timestep index is strictly below the rollout's last observation index —
and on the spec's concrete scenario (rollout A with 2 non-truncated
observations, rollout B with 3 observations and `trunc_end = True`) it yields
exactly 4 frames with `rollout_indices = [0,0,1,1]` and
`timestep_indices = [0,1,0,1]`. -/
theorem frames_exclude_trailing :
    (∀ (α : Type) (rollouts : List (Rollout α)) (i : Nat) (ro : Rollout α),
      i < (_frames_from_rollouts rollouts).1.length →
      rollouts.get? ((_frames_from_rollouts rollouts).2.1.getD i 0) = some ro →
      ro.trunc_end = true →
      (_frames_from_rollouts rollouts).2.2.getD i 0 + 1 < ro.observations.length) ∧
    _frames_from_rollouts
        [Rollout.mk [10, 11] false 0 0 0, Rollout.mk [20, 21, 22] true 0 0 0]
      = ([10, 11, 20, 21], [0, 0, 1, 1], [0, 1, 0, 1]) := by
  constructor
  · intro α rollouts i ro hlen hget htr
    have hlen' : i < (framesAux 0 rollouts).length := by
      simpa [_frames_from_rollouts] using hlen
    have hmem : (framesAux 0 rollouts).get ⟨i, hlen'⟩ ∈ framesAux 0 rollouts :=
      List.get_mem _ _ _
    obtain ⟨j, ro', hget', hj, hstep⟩ := mem_framesAux _ _ _ hmem
    have h2 : (_frames_from_rollouts rollouts).2.1.getD i 0
        = ((framesAux 0 rollouts).get ⟨i, hlen'⟩).2.1 := by
      have hsome : (framesAux 0 rollouts)[i]? = some ((framesAux 0 rollouts).get ⟨i, hlen'⟩) := by
        simp [List.getElem?_eq_getElem, hlen']
      simp [_frames_from_rollouts, List.getD_eq_getElem?_getD, List.getElem?_map, hsome]
    have h3 : (_frames_from_rollouts rollouts).2.2.getD i 0
        = ((framesAux 0 rollouts).get ⟨i, hlen'⟩).2.2 := by
      have hsome : (framesAux 0 rollouts)[i]? = some ((framesAux 0 rollouts).get ⟨i, hlen'⟩) := by
        simp [List.getElem?_eq_getElem, hlen']
      simp [_frames_from_rollouts, List.getD_eq_getElem?_getD, List.getElem?_map, hsome]
    rw [h2, hj, Nat.zero_add] at hget
    rw [hget'] at hget
    cases hget
    have hlt : ((framesAux 0 rollouts).get ⟨i, hlen'⟩).2.2 < ro.step_observations.length := by
      obtain ⟨hh, _⟩ := List.get?_eq_some.mp hstep
      exact hh
    rw [Rollout.step_observations, htr, if_pos rfl, List.length_dropLast] at hlt
    rw [h3]
    omega
  · decide

/-- C1 witness: the general exclusion statement instantiated at a single
truncated rollout with three observations. -/
theorem frames_exclude_trailing_witness :
    (_frames_from_rollouts [Rollout.mk [20, 21, 22] true 0 0 0]).2.2.getD 0 0 + 1 < 3 :=
  frames_exclude_trailing.1 Nat [Rollout.mk [20, 21, 22] true 0 0 0] 0
    (Rollout.mk [20, 21, 22] true 0 0 0) (by decide) (by decide) rfl

/-- C7: the feed-forward model is stateless — `stateful` is `false`,
`start_state` returns the stateless sentinel `none` for every batch size, and
every `step` result carries `states = none`. -/
theorem feedforward_stateless {α β : Type} (m : FeedforwardAC α β) (n : Nat)
    (obses : List α) (st : Option Unit) :
    m.stateful = false ∧ m.start_state n = none ∧ (m.step obses st).states = none :=
  ⟨rfl, rfl, rfl⟩

/-! ## Properties of the minibatch partitioner -/

theorem chunksAux_flatten (k : Nat) (hk : 1 ≤ k) :
    ∀ (fuel : Nat) (xs : List Nat), xs.length ≤ fuel → (chunksAux k fuel xs).flatten = xs := by
  intro fuel
  induction fuel with
  | zero =>
    intro xs hx
    cases xs with
    | nil => rfl
    | cons x rest => simp at hx
  | succ fuel ih =>
    intro xs hx
    cases xs with
    | nil => rfl
    | cons x rest =>
      have hdrop : ((x :: rest).drop k).length ≤ fuel := by
        simp only [List.length_drop, List.length_cons]
        simp only [List.length_cons] at hx
        omega
      simp only [chunksAux, List.flatten_cons, ih _ hdrop, List.take_append_drop]

theorem chunksAux_length_le (k : Nat) :
    ∀ (fuel : Nat) (xs : List Nat) (b : List Nat), b ∈ chunksAux k fuel xs → b.length ≤ k := by
  intro fuel
  induction fuel with
  | zero =>
    intro xs b hb
    cases xs with
    | nil => cases hb
    | cons x rest => cases hb
  | succ fuel ih =>
    intro xs b hb
    cases xs with
    | nil => cases hb
    | cons x rest =>
      rcases List.mem_cons.mp hb with h1 | h1
      · subst h1
        simp [List.length_take_le k (x :: rest)]
      · exact ih _ _ h1

theorem chunks_flatten (k : Nat) (hk : 1 ≤ k) (xs : List Nat) :
    (chunks k xs).flatten = xs :=
  chunksAux_flatten k hk xs.length xs le_rfl

/-- Elements of a list of lists with a duplicate-free concatenation are
pairwise disjoint. -/
theorem pairwise_disjoint_of_flatten_nodup {L : List (List Nat)}
    (h : L.flatten.Nodup) : L.Pairwise List.Disjoint :=
  (List.nodup_flatten.mp h).2

/-- Reading a list back off from `range` via `getD`, in parallel over two
lists of equal length, reconstructs their zip. -/
theorem map_range_getD_zip {β γ : Type} (da : β) (db : γ) :
    ∀ (as : List β) (bs : List γ), as.length = bs.length →
      (List.range as.length).map (fun i => (as.getD i da, bs.getD i db)) = as.zip bs := by
  intro as
  induction as with
  | nil =>
    intro bs h
    simp
  | cons a as ih =>
    intro bs h
    cases bs with
    | nil => simp at h
    | cons b bs =>
      have h' : as.length = bs.length := by simpa using h
      simp only [List.length_cons, List.range_succ_eq_map, List.map_cons, List.map_map,
        List.getD_cons_zero, List.zip_cons_cons]
      refine congrArg _ ?_
      have : ((fun i => ((a :: as).getD i da, (b :: bs).getD i db)) ∘ Nat.succ)
          = fun i => (as.getD i da, bs.getD i db) := by
        funext i
        simp
      rw [this, ih bs h']

theorem stepsAux_pairs_nodup {α : Type} (os : List α) (ridx : Nat) :
    ∀ tidx : Nat, ((stepsAux ridx tidx os).map (fun t => t.2)).Nodup := by
  induction os with
  | nil => intro tidx; simp [stepsAux]
  | cons o os ih =>
    intro tidx
    simp only [stepsAux, List.map_cons, List.nodup_cons]
    refine ⟨?_, ih (tidx + 1)⟩
    intro hmem
    obtain ⟨t, ht, hte⟩ := List.mem_map.mp hmem
    obtain ⟨j, _, _, h3⟩ := mem_stepsAux os ridx (tidx + 1) t ht
    rw [hte] at h3
    simp at h3
    omega

theorem framesAux_pairs_nodup {α : Type} (rollouts : List (Rollout α)) :
    ∀ ridx : Nat, ((framesAux ridx rollouts).map (fun t => t.2)).Nodup := by
  induction rollouts with
  | nil => intro ridx; simp [framesAux]
  | cons ro rest ih =>
    intro ridx
    simp only [framesAux, List.map_append]
    rw [List.nodup_append]
    refine ⟨stepsAux_pairs_nodup _ _ _, ih (ridx + 1), ?_⟩
    intro p hp1 hp2
    obtain ⟨t1, ht1, he1⟩ := List.mem_map.mp hp1
    obtain ⟨t2, ht2, he2⟩ := List.mem_map.mp hp2
    obtain ⟨j1, _, hr1, _⟩ := mem_stepsAux _ _ _ _ ht1
    obtain ⟨j2, _, _, hr2, _⟩ := mem_framesAux _ _ _ ht2
    have : t1.2.1 = t2.2.1 := by rw [he1, he2]
    omega

/-- The zip of the two parallel index lists is exactly the list of
`(rollout_idx, timestep_idx)` pairs of the frame triples. -/
theorem frames_zip_eq {α : Type} (rollouts : List (Rollout α)) :
    (_frames_from_rollouts rollouts).2.1.zip (_frames_from_rollouts rollouts).2.2
      = (framesAux 0 rollouts).map (fun t => t.2) := by
  simp [_frames_from_rollouts, List.zip_map']

theorem flatMap_map_eq_flatten_map {γ : Type} (L : List (List Nat)) (h : Nat → γ) :
    L.flatMap (fun mini => mini.map h) = L.flatten.map h := by
  induction L with
  | nil => rfl
  | cons x xs ih => simp [List.flatMap_cons, ih]

/-- C2: with a positive `batch_size = k`, the index lists routed to the
yielded batches are pairwise disjoint and concatenate to exactly
`range(N)` over the `N` trimmed frames, no yielded batch carries more than
`k` elements, and the concatenation of the yielded
`(rollout_idx, timestep_idx)` pairs is exactly the (duplicate-free) pair list
of the flattened frame set. -/
theorem batches_partition {α β : Type} [Inhabited α] (m : FeedforwardAC α β)
    (rollouts : List (Rollout α)) (k : Nat) (hk : 1 ≤ k) :
    (mini_batches (List.replicate (_frames_from_rollouts rollouts).1.length 1) (some k)).flatten
        = List.range (_frames_from_rollouts rollouts).1.length ∧
    (mini_batches (List.replicate (_frames_from_rollouts rollouts).1.length 1)
        (some k)).Pairwise List.Disjoint ∧
    (∀ b ∈ m.batches rollouts (some k),
      b.rollout_idxs.length ≤ k ∧ b.timestep_idxs.length ≤ k ∧ b.obses.length ≤ k) ∧
    ((m.batches rollouts (some k)).flatMap fun b => b.rollout_idxs.zip b.timestep_idxs)
        = (_frames_from_rollouts rollouts).2.1.zip (_frames_from_rollouts rollouts).2.2 ∧
    ((_frames_from_rollouts rollouts).2.1.zip (_frames_from_rollouts rollouts).2.2).Nodup := by
  have hmini : mini_batches (List.replicate (_frames_from_rollouts rollouts).1.length 1) (some k)
      = chunks k (List.range (_frames_from_rollouts rollouts).1.length) := by
    simp [mini_batches]
  have hflat : (mini_batches (List.replicate (_frames_from_rollouts rollouts).1.length 1)
      (some k)).flatten = List.range (_frames_from_rollouts rollouts).1.length := by
    rw [hmini]
    exact chunks_flatten k hk _
  refine ⟨hflat, ?_, ?_, ?_, ?_⟩
  · refine pairwise_disjoint_of_flatten_nodup ?_
    rw [hflat]
    exact List.nodup_range _
  · intro b hb
    simp only [FeedforwardAC.batches, List.mem_map] at hb
    obtain ⟨mini, hmem, hb⟩ := hb
    rw [hmini] at hmem
    have hlen : mini.length ≤ k := chunksAux_length_le k _ _ mini hmem
    refine ⟨?_, ?_, ?_⟩ <;> simp [← hb, hlen]
  · have hbatch : m.batches rollouts (some k)
        = (mini_batches (List.replicate (_frames_from_rollouts rollouts).1.length 1)
            (some k)).map fun mini =>
          TrainingBatch.mk (mini.map fun i => (_frames_from_rollouts rollouts).2.1.getD i 0)
            (mini.map fun i => (_frames_from_rollouts rollouts).2.2.getD i 0)
            (mini.map fun i => (_frames_from_rollouts rollouts).1.getD i default) := rfl
    rw [hbatch, List.flatMap_map]
    have hzip : ∀ mini : List Nat,
        ((mini.map fun i => (_frames_from_rollouts rollouts).2.1.getD i 0).zip
          (mini.map fun i => (_frames_from_rollouts rollouts).2.2.getD i 0))
        = mini.map fun i => ((_frames_from_rollouts rollouts).2.1.getD i 0,
            (_frames_from_rollouts rollouts).2.2.getD i 0) := by
      intro mini
      exact List.zip_map' _ _ mini
    simp only [hzip]
    rw [flatMap_map_eq_flatten_map, hflat]
    have h1 := (frames_lengths rollouts).1
    have h2 := (frames_lengths rollouts).2
    have := map_range_getD_zip 0 0 (_frames_from_rollouts rollouts).2.1
      (_frames_from_rollouts rollouts).2.2 (by rw [h1, h2])
    rw [h1] at this
    exact this
  · rw [frames_zip_eq]
    exact framesAux_pairs_nodup rollouts 0

/-- Concrete example model: singleton actor parameter `[1]`, critic output
`1`, trivial action sampling. -/
def m0 : FeedforwardAC Nat Unit :=
  ⟨fun _ => [1], fun _ => 1, fun ps => ps.map fun _ => ()⟩

/-- Rollout A of the spec's end-to-end scenario: two observations, not
truncated. -/
def rollA : Rollout Nat := ⟨[10, 11], false, 0, 0, 0⟩

/-- Rollout B of the spec's end-to-end scenario: three observations,
truncated. -/
def rollB : Rollout Nat := ⟨[20, 21, 22], true, 0, 0, 0⟩

/-- C2 witness: the partition property evaluated on the two-rollout scenario
with `batch_size = 2`. -/
theorem batches_partition_witness :
    (mini_batches (List.replicate (_frames_from_rollouts [rollA, rollB]).1.length 1)
        (some 2)).flatten
        = List.range (_frames_from_rollouts [rollA, rollB]).1.length ∧
    (mini_batches (List.replicate (_frames_from_rollouts [rollA, rollB]).1.length 1)
        (some 2)).Pairwise List.Disjoint ∧
    (∀ b ∈ m0.batches [rollA, rollB] (some 2),
      b.rollout_idxs.length ≤ 2 ∧ b.timestep_idxs.length ≤ 2 ∧ b.obses.length ≤ 2) ∧
    ((m0.batches [rollA, rollB] (some 2)).flatMap fun b => b.rollout_idxs.zip b.timestep_idxs)
        = (_frames_from_rollouts [rollA, rollB]).2.1.zip
            (_frames_from_rollouts [rollA, rollB]).2.2 ∧
    ((_frames_from_rollouts [rollA, rollB]).2.1.zip
        (_frames_from_rollouts [rollA, rollB]).2.2).Nodup :=
  batches_partition m0 [rollA, rollB] 2 (by decide)

theorem framesAux_eq_nil {α : Type} (rollouts : List (Rollout α))
    (h : ∀ ro ∈ rollouts, ro.step_observations = []) :
    ∀ ridx : Nat, framesAux ridx rollouts = [] := by
  induction rollouts with
  | nil => intro _; rfl
  | cons ro rest ih =>
    intro ridx
    have h1 : ro.step_observations = [] := h ro (by simp)
    have h2 : ∀ r ∈ rest, r.step_observations = [] := fun r hr => h r (by simp [hr])
    simp [framesAux, h1, stepsAux, ih h2]

/-- C6 counterexample: calling `batches` on a rollout set in which every
rollout is truncated does NOT generally yield zero batches — a single
truncated rollout with three observations still contributes its two
non-trailing frames, so one batch is yielded. -/
theorem batches_all_truncated_nonempty :
    m0.batches [rollB] (some 2) ≠ [] := by decide

/-- C6 (amended): when every given rollout contributes no trimmed frames
(in particular for the empty rollout sequence), `batches` with a numeric
batch size yields zero batches, and `batches` with `batch_size = None`
yields exactly one empty batch; no case is an error. -/
theorem batches_empty_frames {α β : Type} [Inhabited α] (m : FeedforwardAC α β) (k : Nat)
    (rollouts : List (Rollout α)) (h : ∀ ro ∈ rollouts, ro.step_observations = []) :
    m.batches rollouts (some k) = [] ∧
    m.batches rollouts none = [TrainingBatch.mk [] [] []] := by
  have hf : framesAux 0 rollouts = [] := framesAux_eq_nil rollouts h 0
  constructor
  · simp [FeedforwardAC.batches, _frames_from_rollouts, hf, mini_batches, chunks, chunksAux]
  · simp [FeedforwardAC.batches, _frames_from_rollouts, hf, mini_batches]

/-- C6 witness: the amended statement evaluated on the empty rollout list and
on a single truncated rollout with one (trailing-only) observation. -/
theorem batches_empty_frames_witness :
    m0.batches [Rollout.mk [5] true 0 0 0] (some 3) = [] ∧
    m0.batches [Rollout.mk [5] true 0 0 0] none = [TrainingBatch.mk [] [] []] :=
  batches_empty_frames m0 3 [Rollout.mk [5] true 0 0 0] (by decide)

/-! ## Output scaling -/

/-- C4 counterexample: `scale_outputs` applied with factor 0 is also
idempotent — applying it twice to a model with nonzero outputs equals
applying it once — although the factor is not 1.  This refutes "idempotent
only for factor 1". -/
theorem scale_zero_idempotent :
    (m0.scale_outputs 0).scale_outputs 0 = m0.scale_outputs 0 ∧ (0 : ℚ) ≠ 1 := by
  refine ⟨?_, by norm_num⟩
  simp only [m0, FeedforwardAC.scale_outputs]
  rw [FeedforwardAC.mk.injEq]
  refine ⟨?_, ?_, rfl⟩
  · funext o
    simp
  · funext o
    simp

/-- C4 (amended): `scale_outputs(s)` multiplies every actor parameter and
every critic value of any subsequent `step` call by `s`; repeated
application composes multiplicatively (`scale_outputs(s)` then
`scale_outputs(t)` equals `scale_outputs(s*t)`); and for a model with some
nonzero actor or critic output, applying `scale_outputs(s)` twice equals
applying it once exactly when `s = 0` or `s = 1` — so among output-preserving
factors only 1 is idempotent, but factor 0 is idempotent as well. -/
theorem scale_outputs_spec {α β : Type} (m : FeedforwardAC α β) (s t : ℚ)
    (obses : List α) (st : Option Unit) :
    ((m.scale_outputs s).step obses st).action_params
        = ((m.step obses st).action_params).map (List.map fun p => p * s) ∧
    ((m.scale_outputs s).step obses st).values
        = ((m.step obses st).values).map (fun v => v * s) ∧
    (m.scale_outputs s).scale_outputs t = m.scale_outputs (s * t) ∧
    (((∃ o p, p ∈ m.actor_out o ∧ p ≠ 0) ∨ (∃ o, m.critic_out o ≠ 0)) →
      ((m.scale_outputs s).scale_outputs s = m.scale_outputs s ↔ s = 0 ∨ s = 1)) := by
  obtain ⟨a, c, smp⟩ := m
  refine ⟨?_, ?_, ?_, ?_⟩
  · simp [FeedforwardAC.step, FeedforwardAC.scale_outputs, List.map_map]
  · simp [FeedforwardAC.step, FeedforwardAC.scale_outputs, List.map_map]
  · simp only [FeedforwardAC.scale_outputs]
    rw [FeedforwardAC.mk.injEq]
    refine ⟨?_, ?_, rfl⟩
    · funext o
      simp [List.map_map, mul_assoc]
    · funext o
      simp [mul_assoc]
  · intro hnz
    constructor
    · intro h
      simp only [FeedforwardAC.scale_outputs] at h
      rw [FeedforwardAC.mk.injEq] at h
      obtain ⟨ha, hc, -⟩ := h
      have hss : s * s = s := by
        rcases hnz with ⟨o, p, hp, hp0⟩ | ⟨o, ho⟩
        · have h1 := congrFun ha o
          rw [List.map_map] at h1
          have h2 := (List.map_eq_map_iff.mp h1) p hp
          simp only [Function.comp] at h2
          have h3 : p * (s * s) = p * s := by linarith [h2, mul_assoc p s s]
          exact mul_left_cancel₀ hp0 h3
        · have h1 := congrFun hc o
          have h3 : c o * (s * s) = c o * s := by
            rw [← mul_assoc]
            exact h1
          exact mul_left_cancel₀ ho h3
      have h2 : s * (s - 1) = 0 := by
        rw [mul_sub, hss, mul_one, sub_self]
      rcases mul_eq_zero.mp h2 with h3 | h3
      · exact Or.inl h3
      · exact Or.inr (by linarith [sub_eq_zero.mp h3])
    · rintro (rfl | rfl)
      · simp only [FeedforwardAC.scale_outputs]
        rw [FeedforwardAC.mk.injEq]
        refine ⟨?_, ?_, rfl⟩
        · funext o
          simp [List.map_map]
        · funext o
          simp
      · simp only [FeedforwardAC.scale_outputs]
        rw [FeedforwardAC.mk.injEq]
        refine ⟨?_, ?_, rfl⟩
        · funext o
          simp
        · funext o
          simp

/-- C4 witness: the amended statement evaluated at the concrete model `m0`
with factors 2 and 3, on the observation batch `[0]`. -/
theorem scale_outputs_spec_witness :
    ((m0.scale_outputs 2).step [0] none).action_params
        = ((m0.step [0] none).action_params).map (List.map fun p => p * 2) ∧
    ((m0.scale_outputs 2).step [0] none).values
        = ((m0.step [0] none).values).map (fun v => v * 2) ∧
    (m0.scale_outputs 2).scale_outputs 3 = m0.scale_outputs (2 * 3) ∧
    ((m0.scale_outputs 2).scale_outputs 2 = m0.scale_outputs 2 ↔ (2 : ℚ) = 0 ∨ (2 : ℚ) = 1) :=
  ⟨(scale_outputs_spec m0 2 3 [0] none).1,
   (scale_outputs_spec m0 2 3 [0] none).2.1,
   (scale_outputs_spec m0 2 3 [0] none).2.2.1,
   (scale_outputs_spec m0 2 3 [0] none).2.2.2 (Or.inr ⟨0, by norm_num [m0]⟩)⟩

/-! ## Opening log files -/

/-- C3 counterexample: `EpisodeLogger.__init__` on a pre-existing but
zero-byte log file raises — `os.path.isfile` is true, so it calls
`pandas.read_csv`, which raises `EmptyDataError` on an empty file — rather
than treating the file as freshly initialized. -/
theorem episode_logger_raises_on_empty_file :
    EpisodeLogger.init (some emptyFile) 100 = Except.error "EmptyDataError" := rfl

/-- C3 (amended): opening at an absent path creates the file and writes the
header, opening a header-only file is treated as freshly initialized, and
opening a file with data rows recomputes the start-time anchor as
`now - max(t)` — for both `EpisodeLogger.__init__` and
`LoggedEnv._initialize_file`.  `LoggedEnv._initialize_file` also accepts a
pre-existing zero-byte file (writing the header into it), but
`EpisodeLogger.__init__` raises pandas `EmptyDataError` on a zero-byte file,
so the "never raises, including on an empty file" guarantee holds only for
`LoggedEnv`. -/
theorem log_open_spec (now : Int) (rows : List Row) (h : rows ≠ []) :
    EpisodeLogger.init none now = Except.ok (⟨now⟩, ⟨true, []⟩) ∧
    EpisodeLogger.init (some ⟨true, []⟩) now = Except.ok (⟨now⟩, ⟨true, []⟩) ∧
    EpisodeLogger.init (some ⟨true, rows⟩) now
        = Except.ok (⟨now - maxT rows⟩, ⟨true, rows⟩) ∧
    (EpisodeLogger.init (some emptyFile) now).isOk = false ∧
    LoggedEnv.initFile none now = Except.ok ⟨now, 0, 0, ⟨true, []⟩⟩ ∧
    LoggedEnv.initFile (some emptyFile) now = Except.ok ⟨now, 0, 0, ⟨true, []⟩⟩ ∧
    LoggedEnv.initFile (some ⟨true, []⟩) now = Except.ok ⟨now, 0, 0, ⟨true, []⟩⟩ ∧
    LoggedEnv.initFile (some ⟨true, rows⟩) now
        = Except.ok ⟨now - maxT rows, 0, 0, ⟨true, rows⟩⟩ := by
  have hne : rows.isEmpty = false := by
    cases rows with
    | nil => exact absurd rfl h
    | cons r rs => rfl
  refine ⟨rfl, rfl, ?_, rfl, rfl, rfl, rfl, ?_⟩
  · simp [EpisodeLogger.init, read_csv, hne]
  · simp [LoggedEnv.initFile, read_csv, hne]

/-- C3 witness: the amended open behaviour evaluated with a concrete
one-row pre-existing file at `now = 5`. -/
theorem log_open_spec_witness :
    EpisodeLogger.init none 5 = Except.ok (⟨5⟩, ⟨true, []⟩) ∧
    EpisodeLogger.init (some ⟨true, []⟩) 5 = Except.ok (⟨5⟩, ⟨true, []⟩) ∧
    EpisodeLogger.init (some ⟨true, [Row.mk 1 2 3]⟩) 5
        = Except.ok (⟨5 - maxT [Row.mk 1 2 3]⟩, ⟨true, [Row.mk 1 2 3]⟩) ∧
    (EpisodeLogger.init (some emptyFile) 5).isOk = false ∧
    LoggedEnv.initFile none 5 = Except.ok ⟨5, 0, 0, ⟨true, []⟩⟩ ∧
    LoggedEnv.initFile (some emptyFile) 5 = Except.ok ⟨5, 0, 0, ⟨true, []⟩⟩ ∧
    LoggedEnv.initFile (some ⟨true, []⟩) 5 = Except.ok ⟨5, 0, 0, ⟨true, []⟩⟩ ∧
    LoggedEnv.initFile (some ⟨true, [Row.mk 1 2 3]⟩) 5
        = Except.ok ⟨5 - maxT [Row.mk 1 2 3], 0, 0, ⟨true, [Row.mk 1 2 3]⟩⟩ :=
  log_open_spec 5 [Row.mk 1 2 3] (by decide)

/-! ## Writing episode rows -/

/-- C8: `write_rollouts` appends (as a block at the end of the file, header
flag untouched) exactly one `(reward, length, relative end time)` row for
each rollout whose `trunc_end` is false — up to the sort performed by
`write_frame` — and leaves the file entirely unchanged when every given
rollout is truncated. -/
theorem write_rollouts_spec {α : Type} (lg : EpisodeLogger) (file : FileContent)
    (rollouts : List (Rollout α)) :
    ((∀ ro ∈ rollouts, ro.trunc_end = true) →
      EpisodeLogger.write_rollouts lg file rollouts = file) ∧
    (EpisodeLogger.write_rollouts lg file rollouts).hasHeader = file.hasHeader ∧
    ∃ appended,
      (EpisodeLogger.write_rollouts lg file rollouts).rows = file.rows ++ appended ∧
      appended.Perm ((rollouts.filter fun ro => !ro.trunc_end).map fun ro =>
        Row.mk ro.total_reward ro.total_steps (ro.end_time - lg.start_time)) := by
  refine ⟨?_, ?_, ?_⟩
  · intro hall
    have hfil : (rollouts.filter fun ro => !ro.trunc_end) = [] := by
      rw [List.filter_eq_nil_iff]
      intro ro hro
      simp [hall ro hro]
    simp [EpisodeLogger.write_rollouts, hfil]
  · by_cases hd : ((rollouts.filter fun ro => !ro.trunc_end).map fun ro =>
        Row.mk ro.total_reward ro.total_steps (ro.end_time - lg.start_time)).isEmpty
    · simp [EpisodeLogger.write_rollouts, hd]
    · simp [EpisodeLogger.write_rollouts, hd, EpisodeLogger.write_frame]
  · by_cases hd : ((rollouts.filter fun ro => !ro.trunc_end).map fun ro =>
        Row.mk ro.total_reward ro.total_steps (ro.end_time - lg.start_time)).isEmpty
    · refine ⟨[], ?_, ?_⟩
      · simp [EpisodeLogger.write_rollouts, hd]
      · rw [List.isEmpty_iff.mp hd]
    · refine ⟨List.insertionSort rowLe ((rollouts.filter fun ro => !ro.trunc_end).map fun ro =>
        Row.mk ro.total_reward ro.total_steps (ro.end_time - lg.start_time)), ?_,
        List.perm_insertionSort rowLe _⟩
      simp [EpisodeLogger.write_rollouts, hd, EpisodeLogger.write_frame]

/-- C8 witness: writing a single truncated rollout leaves a concrete file
unchanged. -/
theorem write_rollouts_spec_witness :
    EpisodeLogger.write_rollouts ⟨0⟩ ⟨true, []⟩ [rollB] = ⟨true, []⟩ :=
  (write_rollouts_spec ⟨0⟩ ⟨true, []⟩ [rollB]).1 (by decide)

/-- C9: within one `write_frame` call the appended block of rows is a
permutation of the given frame sorted ascending by the `t` column, whatever
order the frame's rows arrive in; consequently the block `write_rollouts`
appends is sorted by `t` as well. -/
theorem write_frame_sorted {α : Type} (file : FileContent) (frame : List Row)
    (lg : EpisodeLogger) (rollouts : List (Rollout α)) :
    ((EpisodeLogger.write_frame file frame).rows.drop file.rows.length).Perm frame ∧
    List.Sorted rowLe ((EpisodeLogger.write_frame file frame).rows.drop file.rows.length) ∧
    List.Sorted rowLe
      ((EpisodeLogger.write_rollouts lg file rollouts).rows.drop file.rows.length) := by
  have hdrop : (EpisodeLogger.write_frame file frame).rows.drop file.rows.length
      = List.insertionSort rowLe frame := by
    simp [EpisodeLogger.write_frame, List.drop_left]
  refine ⟨?_, ?_, ?_⟩
  · rw [hdrop]
    exact List.perm_insertionSort rowLe frame
  · rw [hdrop]
    exact List.sorted_insertionSort rowLe frame
  · by_cases hd : ((rollouts.filter fun ro => !ro.trunc_end).map fun ro =>
        Row.mk ro.total_reward ro.total_steps (ro.end_time - lg.start_time)).isEmpty
    · simp [EpisodeLogger.write_rollouts, hd, List.drop_length]
    · simp [EpisodeLogger.write_rollouts, hd, EpisodeLogger.write_frame, List.drop_left]
      exact List.sorted_insertionSort rowLe _

/-! ## The LoggedEnv accumulator invariant -/

/-- Closed form of the reward accumulator after a trace: running value,
reset to 0 at every `done`. -/
def accRewardAux (racc : Int) : List Event → Int
  | [] => racc
  | e :: rest => if e.done then accRewardAux 0 rest else accRewardAux (racc + e.rew) rest

/-- Closed form of the timestep counter after a trace: running count,
reset to 0 at every `done`. -/
def accStepsAux (nacc : Int) : List Event → Int
  | [] => nacc
  | e :: rest => if e.done then accStepsAux 0 rest else accStepsAux (nacc + 1) rest

/-- Specification of the rows the wrapper writes along a trace: one row per
`done` event, recording the episode totals accumulated up to and including
that step, with the accumulators restarting from 0 afterwards. -/
def episodeRows (anchor : Int) (racc nacc : Int) : List Event → List Row
  | [] => []
  | e :: rest =>
    if e.done then
      Row.mk (racc + e.rew) (nacc + 1) (e.now - anchor) :: episodeRows anchor 0 0 rest
    else
      episodeRows anchor (racc + e.rew) (nacc + 1) rest

/-- The events observed since the most recent `done` (the current,
uncompleted episode). -/
def suffixAfterLastDone (events : List Event) : List Event :=
  events.foldl (fun acc e => if e.done then [] else acc ++ [e]) []

/-- Simulation lemma: `runSteps` is fully described by the closed-form
accumulators and `episodeRows`. -/
theorem runSteps_spec (events : List Event) : ∀ st : LoggedState,
    LoggedEnv.runSteps st events
      = ⟨st.start_time, accRewardAux st.cur_reward events, accStepsAux st.cur_timesteps events,
         ⟨st.file.hasHeader,
          st.file.rows ++ episodeRows st.start_time st.cur_reward st.cur_timesteps events⟩⟩ := by
  induction events with
  | nil =>
    intro st
    simp only [LoggedEnv.runSteps, List.foldl_nil, accRewardAux, accStepsAux, episodeRows,
      List.append_nil]
  | cons e rest ih =>
    intro st
    have hstep : LoggedEnv.runSteps st (e :: rest)
        = LoggedEnv.runSteps (LoggedEnv.stepEnv st e) rest := rfl
    rw [hstep, ih]
    by_cases hd : e.done
    · simp [LoggedEnv.stepEnv, hd, accRewardAux, accStepsAux, episodeRows,
        List.append_assoc]
    · simp [LoggedEnv.stepEnv, hd, accRewardAux, accStepsAux, episodeRows]

theorem accRewardAux_suffix (events : List Event) :
    ∀ (acc : List Event) (racc : Int), racc = (acc.map Event.rew).sum →
      accRewardAux racc events
        = (((events.foldl (fun acc2 e => if e.done then [] else acc2 ++ [e]) acc)).map
            Event.rew).sum := by
  induction events with
  | nil =>
    intro acc racc h
    simpa [accRewardAux] using h
  | cons e rest ih =>
    intro acc racc h
    by_cases hd : e.done
    · simp only [accRewardAux, hd, if_true, List.foldl_cons]
      exact ih [] 0 (by simp)
    · simp only [accRewardAux, hd, if_false, List.foldl_cons]
      exact ih (acc ++ [e]) (racc + e.rew) (by simp [h])

theorem accStepsAux_suffix (events : List Event) :
    ∀ (acc : List Event) (nacc : Int), nacc = (acc.length : Int) →
      accStepsAux nacc events
        = (((events.foldl (fun acc2 e => if e.done then [] else acc2 ++ [e]) acc)).length
            : Int) := by
  induction events with
  | nil =>
    intro acc nacc h
    simpa [accStepsAux] using h
  | cons e rest ih =>
    intro acc nacc h
    by_cases hd : e.done
    · simp only [accStepsAux, hd, if_true, List.foldl_cons]
      exact ih [] 0 (by simp)
    · simp only [accStepsAux, hd, if_false, List.foldl_cons]
      refine ih (acc ++ [e]) (nacc + 1) ?_
      simp [h]

/-- C10: starting from zeroed accumulators, after any trace of inner
environment steps `_cur_reward` equals the sum of rewards seen since the last
episode end and `_cur_timesteps` equals the number of steps since the last
episode end (both reset on every `done`), and the rows appended to the log
are exactly one row per `done` event recording that episode's accumulated
reward and length and its relative end time. -/
theorem logged_env_invariant (st : LoggedState) (events : List Event)
    (h1 : st.cur_reward = 0) (h2 : st.cur_timesteps = 0) :
    (LoggedEnv.runSteps st events).cur_reward
        = ((suffixAfterLastDone events).map Event.rew).sum ∧
    (LoggedEnv.runSteps st events).cur_timesteps
        = ((suffixAfterLastDone events).length : Int) ∧
    (LoggedEnv.runSteps st events).file.rows
        = st.file.rows ++ episodeRows st.start_time 0 0 events ∧
    (LoggedEnv.runSteps st events).start_time = st.start_time ∧
    (LoggedEnv.runSteps st events).file.hasHeader = st.file.hasHeader := by
  rw [runSteps_spec events st, h1, h2]
  refine ⟨?_, ?_, rfl, rfl, rfl⟩
  · exact accRewardAux_suffix events [] 0 (by simp)
  · exact accStepsAux_suffix events [] 0 (by simp)

/-- C10 witness: the invariant evaluated on a concrete three-step trace with
one completed episode. -/
theorem logged_env_invariant_witness :
    (LoggedEnv.runSteps ⟨100, 0, 0, ⟨true, []⟩⟩
        [⟨2, false, 101⟩, ⟨3, true, 102⟩, ⟨5, false, 103⟩]).cur_reward
        = ((suffixAfterLastDone [⟨2, false, 101⟩, ⟨3, true, 102⟩, ⟨5, false, 103⟩]).map
            Event.rew).sum ∧
    (LoggedEnv.runSteps ⟨100, 0, 0, ⟨true, []⟩⟩
        [⟨2, false, 101⟩, ⟨3, true, 102⟩, ⟨5, false, 103⟩]).cur_timesteps
        = ((suffixAfterLastDone [⟨2, false, 101⟩, ⟨3, true, 102⟩, ⟨5, false, 103⟩]).length
            : Int) ∧
    (LoggedEnv.runSteps ⟨100, 0, 0, ⟨true, []⟩⟩
        [⟨2, false, 101⟩, ⟨3, true, 102⟩, ⟨5, false, 103⟩]).file.rows
        = (FileContent.mk true []).rows
            ++ episodeRows 100 0 0 [⟨2, false, 101⟩, ⟨3, true, 102⟩, ⟨5, false, 103⟩] ∧
    (LoggedEnv.runSteps ⟨100, 0, 0, ⟨true, []⟩⟩
        [⟨2, false, 101⟩, ⟨3, true, 102⟩, ⟨5, false, 103⟩]).start_time = 100 ∧
    (LoggedEnv.runSteps ⟨100, 0, 0, ⟨true, []⟩⟩
        [⟨2, false, 101⟩, ⟨3, true, 102⟩, ⟨5, false, 103⟩]).file.hasHeader
        = (FileContent.mk true []).hasHeader :=
  logged_env_invariant ⟨100, 0, 0, ⟨true, []⟩⟩
    [⟨2, false, 101⟩, ⟨3, true, 102⟩, ⟨5, false, 103⟩] rfl rfl
